import Mathlib

/-!
Formal model of the n26-vibe-analyzer core: the transaction analytics
pipeline of `src/components/FinancialDashboard.js` and the sortable,
virtualizable table of `src/components/ui/SortableTable.js`.

Modelling conventions:
* JavaScript numbers are exact rationals; where `NaN` can arise a value
  is an `Option ℚ` with `none` standing for `NaN`.
* Calendar dates are integer day indexes counted from 1970-01-01 (the
  JS epoch), converted to and from civil `YYYY-MM-DD` form with the
  standard proleptic-Gregorian day-count algorithm, so that adding one
  to the index is exactly `setDate(getDate() + 1)` and the lexicographic
  order of the date strings agrees with the order of the indexes.
* `Array.prototype.sort` (ES2019+, stable) and lodash `sortBy`/`orderBy`
  are modelled by a stable insertion sort; for the consistent
  comparators built by the code every stable sort yields this result.
* String upper/lower casing is ASCII per-character casing, and string
  comparison (`localeCompare`) is code-point lexicographic comparison;
  both are faithful on the ASCII data the analyses handle.
-/

namespace N26

/-- JavaScript value as it appears in a parsed record cell: `undefined`,
`null`, a boolean, a (finite) number, or a string. -/
inductive Value where
  | vUndefined : Value
  | vNull : Value
  | vBool : Bool → Value
  | vNum : ℚ → Value
  | vStr : String → Value
deriving DecidableEq, Repr

/-- JavaScript truthiness of a `Value` (used by `||` and by `cond ? a : b`). -/
def truthy : Value → Bool
  | .vUndefined => false
  | .vNull => false
  | .vBool b => b
  | .vNum q => decide (q ≠ 0)
  | .vStr s => decide (s ≠ "")

/-- A JavaScript number that may be `NaN`: `none` is `NaN`. -/
abbrev JNum := Option ℚ

/-- JavaScript subtraction, propagating `NaN`. -/
def jsub (a b : JNum) : JNum :=
  match a, b with
  | some x, some y => some (x - y)
  | _, _ => none

/-- ASCII uppercasing of a string, modelling `String.prototype.toUpperCase`
on the ASCII data in scope (defined over the character list so that the
kernel can evaluate it). -/
def jsUpper (s : String) : String := ⟨s.data.map Char.toUpper⟩

/-- ASCII lowercasing of a string, modelling `String.prototype.toLowerCase`
on the ASCII data in scope. -/
def jsLower (s : String) : String := ⟨s.data.map Char.toLower⟩

/-- Whether a string contains a character, modelling `String.prototype.includes`
with a one-character needle. -/
def jsContainsChar (s : String) (c : Char) : Bool := s.data.contains c

/-- Code-point comparison of characters. -/
def charCmp (a b : Char) : Ordering :=
  if a.toNat < b.toNat then .lt else if b.toNat < a.toNat then .gt else .eq

/-- Lexicographic code-point comparison of character lists, modelling
`String.prototype.localeCompare` (locale effects abstracted away). -/
def listCmp : List Char → List Char → Ordering
  | [], [] => .eq
  | [], _ :: _ => .lt
  | _ :: _, [] => .gt
  | a :: as, b :: bs =>
    match charCmp a b with
    | .eq => listCmp as bs
    | o => o

/-- String comparison used for string-typed sorting. -/
def strCmp (a b : String) : Ordering := listCmp a.data b.data

/-- The signed number `localeCompare` returns, as a `JNum`. -/
def orderingToJNum : Ordering → JNum
  | .lt => some (-1)
  | .eq => some 0
  | .gt => some 1

/-! ### Decimal number literals (`Number(string)` on simple decimals) -/

/-- Value of a list of decimal digits, `none` when the list is empty or a
character is not a digit. -/
def digitsVal : List Char → Option ℕ
  | [] => none
  | cs => cs.foldl (fun acc c =>
      acc.bind fun n => if c.isDigit then some (n * 10 + (c.toNat - 48)) else none)
      (some 0)

/-- Parse an optionally signed decimal literal (digits, optional point and
digits) to a rational; `none` models `NaN`. This covers the number strings
the analyzer handles; other `Number` coercions are out of scope. -/
def parseDec (s : String) : Option ℚ :=
  let core : List Char → Option ℚ := fun cs =>
    match cs.splitOn '.' with
    | [intPart] => (digitsVal intPart).map (fun n => (n : ℚ))
    | [intPart, fracPart] =>
      (digitsVal intPart).bind fun i =>
        (digitsVal fracPart).map fun f =>
          (i : ℚ) + (f : ℚ) / ((10 : ℚ) ^ fracPart.length)
    | _ => none
  match s.data with
  | '-' :: rest => (core rest).map (fun q => -q)
  | cs => core cs

/-- `ToNumber` coercion of a `Value`; `none` is `NaN`. An empty string
coerces to `0` as in JavaScript. -/
def toNumber : Value → JNum
  | .vUndefined => none
  | .vNull => some 0
  | .vBool b => some (if b then 1 else 0)
  | .vNum q => some q
  | .vStr s => if s = "" then some 0 else parseDec s

/-- Rendering of a rational as a string: integers print as in JavaScript;
non-integers use a fraction form (an abstraction of JS decimal printing,
adequate because the claims only compare integer-valued cells). -/
def ratStr (q : ℚ) : String :=
  if q.den = 1 then toString q.num else toString q.num ++ "/" ++ toString q.den

/-- `String(value)` coercion of a `Value`. -/
def toStr : Value → String
  | .vUndefined => "undefined"
  | .vNull => "null"
  | .vBool b => if b then "true" else "false"
  | .vNum q => ratStr q
  | .vStr s => s

/-! ### Civil calendar (proleptic Gregorian, days counted from 1970-01-01) -/

/-- Day index of a civil date (Howard Hinnant days-from-civil algorithm),
0 = 1970-01-01. -/
def daysFromCivil (y0 m d : ℤ) : ℤ :=
  let y := y0 - (if m ≤ 2 then 1 else 0)
  let era := Int.fdiv y 400
  let yoe := y - era * 400
  let doy := (153 * (m + (if m > 2 then -3 else 9)) + 2) / 5 + d - 1
  let doe := yoe * 365 + yoe / 4 - yoe / 100 + doy
  era * 146097 + doe - 719468

/-- Civil date `(year, month, day)` of a day index (Hinnant civil-from-days). -/
def civilFromDays (z0 : ℤ) : ℤ × ℤ × ℤ :=
  let z := z0 + 719468
  let era := Int.fdiv z 146097
  let doe := z - era * 146097
  let yoe := (doe - doe / 1460 + doe / 36524 - doe / 146096) / 365
  let y := yoe + era * 400
  let doy := doe - (365 * yoe + yoe / 4 - yoe / 100)
  let mp := (5 * doy + 2) / 153
  let d := doy - (153 * mp + 2) / 5 + 1
  let m := mp + (if mp < 10 then 3 else -9)
  (y + (if m ≤ 2 then 1 else 0), m, d)

/-- Gregorian leap-year test. -/
def isLeap (y : ℤ) : Bool := (y % 4 = 0 ∧ y % 100 ≠ 0) ∨ y % 400 = 0

/-- Number of days in a civil month. -/
def daysInMonth (y m : ℤ) : ℤ :=
  if m = 2 then (if isLeap y then 29 else 28)
  else if m = 4 ∨ m = 6 ∨ m = 9 ∨ m = 11 then 30
  else 31

/-- Left-pad a string with zeros to width 2 (`padStart(2, zero)`). -/
def pad2 (s : String) : String := if s.length < 2 then "0" ++ s else s

/-- Left-pad a string with zeros to width 4. -/
def pad4 (s : String) : String :=
  match 4 - s.length with
  | 0 => s
  | 1 => "0" ++ s
  | 2 => "00" ++ s
  | 3 => "000" ++ s
  | _ => "0000" ++ s

/-- ISO `YYYY-MM-DD` string of a day index. -/
def isoOfDay (z : ℤ) : String :=
  let c := civilFromDays z
  pad4 (toString c.1) ++ "-" ++ pad2 (toString c.2.1) ++ "-" ++ pad2 (toString c.2.2)

/-- Parse a `YYYY-MM-DD` string to a day index; `none` when the string is
not a valid ISO calendar date (the JS `new Date(s)` then yields an Invalid
Date, i.e. `NaN` time). Date forms other than the ISO date-only form used
by the N26 export are out of scope and also map to `none`. -/
def parseIsoDay (s : String) : Option ℤ :=
  match s.data.splitOn '-' with
  | [ys, ms, ds] =>
    if ys.length = 4 ∧ ms.length = 2 ∧ ds.length = 2 then
      (digitsVal ys).bind fun y =>
        (digitsVal ms).bind fun m =>
          (digitsVal ds).bind fun d =>
            if 1 ≤ m ∧ m ≤ 12 ∧ 1 ≤ d ∧ (d : ℤ) ≤ daysInMonth y m then
              some (daysFromCivil y m d)
            else none
    else none
  | _ => none

/-! ### Stable sorting (Array.prototype.sort with a comparator) -/

/-- Insert `x` into the already sorted list, after every element `y` with
`le y x` (so equal elements keep their original relative order). -/
def insertBy (le : α → α → Bool) (x : α) : List α → List α
  | [] => [x]
  | y :: ys => if le y x then y :: insertBy le x ys else x :: y :: ys

/-- Stable sort by a boolean comparison, modelling the stable
`Array.prototype.sort`: elements are inserted left to right, each after
all earlier elements not strictly greater than it. -/
def stableSortBy (le : α → α → Bool) (l : List α) : List α :=
  l.foldl (fun acc x => insertBy le x acc) []

/-- Interpretation of a JS comparator result as a boolean "not after":
a `NaN` comparator result leaves the relative order unchanged, which for
a stable sort means the two elements are treated as equal. -/
def cmpLe (cmp : α → α → JNum) (a b : α) : Bool :=
  match cmp a b with
  | none => true
  | some q => decide (q ≤ 0)

/-- Stable sort driven by a JS comparator. -/
def jsSortBy (cmp : α → α → JNum) (l : List α) : List α :=
  stableSortBy (cmpLe cmp) l

theorem insertBy_perm (le : α → α → Bool) (x : α) (l : List α) :
    (insertBy le x l).Perm (x :: l) := by
  induction l with
  | nil => simp [insertBy]
  | cons y ys ih =>
    simp only [insertBy]
    cases hle : le y x
    · simp
    · simp only [if_pos]
      exact (ih.cons y).trans (List.Perm.swap x y ys)

theorem stableSortBy_perm (le : α → α → Bool) (l : List α) :
    (stableSortBy le l).Perm l := by
  suffices h : ∀ acc : List α,
      (l.foldl (fun acc x => insertBy le x acc) acc).Perm (l ++ acc) by
    simpa [stableSortBy] using h []
  induction l with
  | nil => intro acc; simp
  | cons x xs ih =>
    intro acc
    simp only [List.foldl_cons, List.cons_append]
    refine (ih (insertBy le x acc)).trans ?_
    refine (List.Perm.append_left xs (insertBy_perm le x acc)).trans ?_
    exact List.perm_middle

/-! ## FinancialDashboard.js — the aggregation pipeline -/

/-- One parsed transaction record. `bookingDate` is the parsed calendar
day index of the `Booking Date` field (`none` when it does not parse to a
calendar date); `amount` is the `Amount (EUR)` field (`none` when the
field is missing, in which case JS arithmetic on it yields `NaN`);
`partnerName`, `txType` and `origCurrency` are raw cell values. -/
structure Tx where
  bookingDate : Option ℤ
  partnerName : Value
  txType : Value
  amount : Option ℚ
  origCurrency : Value
deriving DecidableEq, Repr

/-- The amount as used in summations. Where the code adds or compares the
raw field, a missing amount gives `NaN` (resp. a false comparison); all
theorems touching sums of amounts therefore assume every amount present,
and under that assumption this equals the raw field. -/
def amountQ (t : Tx) : ℚ := t.amount.getD 0

/-- The day index used as sort key, `new Date(t["Booking Date"]).getTime()`;
theorems assume every date parses, making the default irrelevant. -/
def dateKey (t : Tx) : ℤ := t.bookingDate.getD 0

/-- Contribution of one record to the inflow total
(`t > 0 ? t : 0`; a missing amount compares false and contributes 0). -/
def inflowOf (t : Tx) : ℚ :=
  match t.amount with
  | some a => if a > 0 then a else 0
  | none => 0

/-- Contribution of one record to the outflow total (kept negative). -/
def outflowOf (t : Tx) : ℚ :=
  match t.amount with
  | some a => if a < 0 then a else 0
  | none => 0

/-- Sum of positive amounts (line 50). -/
def inflows (txs : List Tx) : ℚ := (txs.map inflowOf).sum

/-- Sum of negative amounts, kept negative (line 51). -/
def outflows (txs : List Tx) : ℚ := (txs.map outflowOf).sum

/-- Net flow, `inflows + outflows` (line 52). -/
def netFlow (txs : List Tx) : ℚ := inflows txs + outflows txs

/-- Sum of absolute amounts (line 49). -/
def totalVolume (txs : List Tx) : ℚ := (txs.map (fun t => |amountQ t|)).sum

/-- `_.sortBy(transactions, t => new Date(t["Booking Date"]).getTime())`
(line 40): stable ascending sort by the parsed booking time. -/
def sortedTransactions (txs : List Tx) : List Tx :=
  stableSortBy (fun a b => decide (dateKey a ≤ dateKey b)) txs

/-- All parsed booking days in ascending order (line 44, the `dates`
array sorted with a numeric comparator). -/
def sortedDays (txs : List Tx) : List ℤ :=
  stableSortBy (fun a b : ℤ => decide (a ≤ b)) (txs.filterMap Tx.bookingDate)

/-- The successive `(date, runningBalance)` writes of the balance loop
(lines 132-139): the running balance after each record is stored under
that record's date, later writes overwriting earlier ones. -/
def runningWrites : List Tx → ℚ → List (ℤ × ℚ)
  | [], _ => []
  | t :: rest, bal =>
    let b := bal + amountQ t
    (dateKey t, b) :: runningWrites rest b

/-- Last value written under a key (JS object assignment semantics). -/
def lastWrite (ws : List (ℤ × ℚ)) (d : ℤ) : Option ℚ :=
  ((ws.filter (fun p => p.1 == d)).getLast?).map Prod.snd

/-- The sparse per-day balance map `dailyBalances` of lines 132-139. -/
def dailyBalances (txs : List Tx) (d : ℤ) : Option ℚ :=
  lastWrite (runningWrites (sortedTransactions txs) 0) d

/-- `Object.keys(dailyBalances).sort()` (line 142): the distinct
transaction days in ascending order (keys appear in first-insertion order
and the lexicographic order of `YYYY-MM-DD` strings is day order). -/
def allDates (txs : List Tx) : List ℤ :=
  stableSortBy (fun a b : ℤ => decide (a ≤ b))
    (((runningWrites (sortedTransactions txs) 0).map Prod.fst).dedup)

/-- The gap-filling walk of lines 148-164: one entry per day from `cur`
for `fuel` days, a day with a recorded balance updating the last known
balance and every day emitting the last known balance. -/
def fillFrom (fuel : ℕ) (cur : ℤ) (m : ℤ → Option ℚ) (lastBal : ℚ) :
    List (ℤ × ℚ) :=
  match fuel with
  | 0 => []
  | n + 1 =>
    let b := (m cur).getD lastBal
    (cur, b) :: fillFrom n (cur + 1) m b

/-- The gap-filled daily balance series `allDailyBalances` (lines 141-164),
one `(day, balance)` entry per calendar day from the first to the last
transaction day; empty when there are no dated records (the `while` loop
then never runs). The per-day display fields and the quarter tag of
`formattedDailyData` are presentation and are omitted. -/
def allDailyBalances (txs : List Tx) : List (ℤ × ℚ) :=
  match (allDates txs).head?, (allDates txs).getLast? with
  | some s, some e => fillFrom ((e - s).toNat + 1) s (dailyBalances txs) 0
  | _, _ => []

/-- The hard-coded own-name alias set of line 74. -/
def nameVariations : List String :=
  ["EUGENIO MARIA BATTAGLIA", "Eugenio Battaglia", "Eugenio Maria Battaglia"]

/-- Whether a counterparty value is a string matching one of the alias
strings case-insensitively (line 78). -/
def isAliasMatch (aliases : List String) (v : Value) : Bool :=
  match v with
  | .vStr s => aliases.any (fun a => jsUpper s == jsUpper a)
  | _ => false

/-- Consolidation of one record (lines 75-82): an alias-matching string
counterparty is rewritten to the canonical label, everything else is
returned unchanged. -/
def consolidateTx (aliases : List String) (t : Tx) : Tx :=
  if isAliasMatch aliases t.partnerName then
    { t with partnerName := .vStr "My Transfers" }
  else t

/-- `consolidatedSortedTransactions` (lines 75-82) generalized over the
alias set. -/
def consolidate (aliases : List String) (txs : List Tx) : List Tx :=
  txs.map (consolidateTx aliases)

/-- Insert an element at the end of its group, creating the group at the
end when the key is new (JS object key insertion order). -/
def upsert (k : String) (x : α) : List (String × List α) → List (String × List α)
  | [] => [(k, [x])]
  | (k', xs) :: rest =>
    if k' == k then (k', xs ++ [x]) :: rest else (k', xs) :: upsert k x rest

/-- `_.groupBy` over a string key, groups in first-appearance order and
group members in input order. -/
def jsGroupBy (key : α → String) (l : List α) : List (String × List α) :=
  l.foldl (fun acc x => upsert (key x) x acc) []

/-- One counterparty ranking entry (lines 88-95). -/
structure PartnerEntry where
  name : String
  count : ℕ
  totalVolume : ℚ
  totalIn : ℚ
  totalOut : ℚ
  net : ℚ
deriving DecidableEq, Repr

/-- Aggregate of one counterparty group (lines 88-95). -/
def mkPartnerEntry (name : String) (g : List Tx) : PartnerEntry :=
  { name := name
    count := g.length
    totalVolume := totalVolume g
    totalIn := inflows g
    totalOut := outflows g
    net := (g.map amountQ).sum }

/-- `partnerVolumes` (lines 86-97): group the consolidated records by the
stringified counterparty, aggregate per group, and order by total volume
descending (stable). This is the full ranking, before the top-10
truncation applied when the result object is assembled (line 300). -/
def partnerVolumes (txs : List Tx) : List PartnerEntry :=
  stableSortBy (fun a b => decide (b.totalVolume ≤ a.totalVolume))
    ((jsGroupBy (fun t => toStr t.partnerName) txs).map
      (fun g => mkPartnerEntry g.1 g.2))

/-- `Math.round`: round half toward positive infinity. -/
def jsRound (q : ℚ) : ℤ := ⌊q + 1 / 2⌋

/-- JS `Date.prototype.getDay`: 0 = Sunday. Day 0 (1970-01-01) was a
Thursday, hence the offset 4. -/
def jsGetDay (z : ℤ) : ℤ := (z + 4).emod 7

/-- `getWeekNumber` (lines 168-179) translated to day indexes: move to
the Thursday of the ISO week, take that Thursday's year, and count weeks
from January 4 of that year. Returns `(year, week)`. -/
def getWeekNumber (z : ℤ) : ℤ × ℤ :=
  let thursday := z + 3 - (jsGetDay z + 6).emod 7
  let y := (civilFromDays thursday).1
  let week1 := daysFromCivil y 1 4
  let weekNum :=
    1 + jsRound ((((thursday - week1 : ℤ) : ℚ) - 3 +
      (((jsGetDay week1 + 6).emod 7 : ℤ) : ℚ)) / 7)
  (y, weekNum)

/-- `formatWeekKey` (lines 182-184). -/
def formatWeekKey (y w : ℤ) : String := toString y ++ "-W" ++ pad2 (toString w)

/-- The week bucket key of a day. -/
def weekKeyOf (z : ℤ) : String :=
  let p := getWeekNumber z
  formatWeekKey p.1 p.2

/-- The month bucket key of a day, `date.slice(0, 7)` = `YYYY-MM` (line 198). -/
def monthKeyOf (z : ℤ) : String :=
  let c := civilFromDays z
  pad4 (toString c.1) ++ "-" ++ pad2 (toString c.2.1)

/-- Boolean form of `a.localeCompare(b) <= 0`, the stable-sort discipline
for the period-key sorts of lines 228 and 244. -/
def strLe (a b : String) : Bool :=
  match strCmp a b with
  | .gt => false
  | _ => true

/-- One weekly or monthly balance summary row (lines 220-227/236-243).
The display label is presentation and is omitted; `minBal`/`maxBal` model
the `min`/`max` fields (`none` cannot occur on the nonempty groups the
grouping produces). -/
structure PeriodEntry where
  period : String
  avgBalance : ℚ
  minBal : Option ℚ
  maxBal : Option ℚ
  days : ℕ
deriving DecidableEq, Repr

/-- Aggregate of one period bucket of daily balances. -/
def mkPeriodEntry (period : String) (balances : List ℚ) : PeriodEntry :=
  { period := period
    avgBalance := balances.sum / (balances.length : ℚ)
    minBal := balances.min?
    maxBal := balances.max?
    days := balances.length }

/-- `weeklyAvgBalances` (lines 187-228): group the daily series entries by
ISO week key, average each bucket, sort by key ascending. -/
def weeklyAvgBalances (series : List (ℤ × ℚ)) : List PeriodEntry :=
  stableSortBy (fun a b => strLe a.period b.period)
    ((jsGroupBy (fun p => weekKeyOf p.1) series).map
      (fun g => mkPeriodEntry g.1 (g.2.map Prod.snd)))

/-- `monthlyAvgBalances` (lines 187-207 and 231-244). -/
def monthlyAvgBalances (series : List (ℤ × ℚ)) : List PeriodEntry :=
  stableSortBy (fun a b => strLe a.period b.period)
    ((jsGroupBy (fun p => monthKeyOf p.1) series).map
      (fun g => mkPeriodEntry g.1 (g.2.map Prod.snd)))

/-- `totalDays` (line 247): number of entries of the gap-filled series. -/
def totalDaysOf (series : List (ℤ × ℚ)) : ℕ := series.length

/-- `sumOfDailyBalances` (line 248). -/
def sumOfDailyBalances (series : List (ℤ × ℚ)) : ℚ := (series.map Prod.snd).sum

/-- `yearlyAvgBalance` (line 249): the arithmetic mean of every daily
balance of the gap-filled series. -/
def yearlyAvgBalance (series : List (ℤ × ℚ)) : ℚ :=
  sumOfDailyBalances series / (totalDaysOf series : ℚ)

/-- The analysis result object assembled at lines 290-316, restricted to
the analytic fields (chart/display decoration omitted). `partnerVolumes`
is the top-10 truncation of the full ranking. -/
structure AnalysisResult where
  startDate : String
  endDate : String
  totalTransactions : ℕ
  totalVolume : ℚ
  inflows : ℚ
  outflows : ℚ
  netFlow : ℚ
  partnerVolumes : List PartnerEntry
  dailySeries : List (ℤ × ℚ)
  weeklyBalances : List PeriodEntry
  monthlyBalances : List PeriodEntry
  totalDays : ℕ
  sumOfDailyBalances : ℚ
  yearlyAvgBalance : ℚ
  allTransactions : List Tx
deriving Repr

/-- `analyze`: the whole `useEffect` computation (lines 29-324) as a
function of the parsed records. With no records, `minDate` is `undefined`
and `minDate.toISOString()` (line 292) throws, caught at line 319; with a
record whose booking date does not parse, `new Date(...).toISOString()`
in the month grouping (line 57) throws. Either way the catch block
reports a failure and no result object is produced. -/
def analyze (txs : List Tx) : Except String AnalysisResult :=
  if txs.isEmpty then
    .error "Failed to process financial data: Cannot read properties of undefined"
  else if txs.any (fun t => t.bookingDate.isNone) then
    .error "Failed to process financial data: Invalid time value"
  else
    let consolidated := consolidate nameVariations (sortedTransactions txs)
    let series := allDailyBalances txs
    .ok
      { startDate := isoOfDay ((sortedDays txs).head?.getD 0)
        endDate := isoOfDay ((sortedDays txs).getLast?.getD 0)
        totalTransactions := txs.length
        totalVolume := totalVolume txs
        inflows := inflows txs
        outflows := outflows txs
        netFlow := netFlow txs
        partnerVolumes := (partnerVolumes consolidated).take 10
        dailySeries := series
        weeklyBalances := weeklyAvgBalances series
        monthlyBalances := monthlyAvgBalances series
        totalDays := totalDaysOf series
        sumOfDailyBalances := sumOfDailyBalances series
        yearlyAvgBalance := yearlyAvgBalance series
        allTransactions := consolidated }

/-! ## SortableTable.js — the sortable / virtualizable table -/

/-- A table row: a JS object of named cell values. -/
abbrev Row := List (String × Value)

/-- Property lookup on a row; a missing key reads as `undefined`. -/
def rowGet (r : Row) (k : String) : Value :=
  match r.find? (fun p => p.1 == k) with
  | some p => p.2
  | none => .vUndefined

/-- The `type` tag of a column: `string`, `number` or `date`. -/
inductive ColType where
  | str
  | num
  | date
deriving DecidableEq, Repr

/-- The argument a custom cell renderer receives. The non-virtualized
body passes the whole row object (line 305, `column.render(row)`); the
virtualized row renderer passes the raw cell value (line 236,
`column.render(row[column.key])`). -/
inductive RenderArg where
  | rowArg (r : Row)
  | valArg (v : Value)

/-- A column descriptor: key into the row, display header, value type,
optional custom cell renderer (the styling class fields are presentation
and are omitted). A column written without a `type` is modelled by `.str`,
the `type || 'string'` default. -/
structure Column where
  key : String
  header : String
  typ : ColType
  render : Option (RenderArg → Value) := none

/-- Sort direction. -/
inductive Dir where
  | asc
  | desc
deriving DecidableEq, Repr

/-- The sort state `{key, direction}` (lines 42-45). -/
structure SortConfig where
  key : Option String
  direction : Dir
deriving DecidableEq, Repr

/-- The initial sort state. The arguments are the `defaultSortKey` /
`defaultSortDirection` props the dashboard passes (FinancialDashboard.js
lines 787-788); the component does not destructure them (lines 28-40) and
initializes `sortConfig` to `{key: null, direction: 'asc'}` (lines 42-45)
regardless. -/
def initSortConfig (_defaultSortKey : Option String)
    (_defaultSortDirection : Option Dir) : SortConfig :=
  { key := none, direction := .asc }

/-- The sort key used for `number` columns: `(aValue || 0)` coerced by the
subtraction (lines 64-66). -/
def numVal (v : Value) : JNum := toNumber (if truthy v then v else .vNum 0)

/-- The sort key used for `date` columns: `aValue ? new
Date(aValue).getTime() : 0` (lines 69-70). A falsy value is the epoch; a
truthy string parses as an ISO date (day index) or is `NaN`; a number is
its own time value. -/
def dateVal (v : Value) : JNum :=
  if truthy v then
    match v with
    | .vStr s => (parseIsoDay s).map (fun z => (z : ℚ))
    | .vNum q => some q
    | .vBool _ => some 1
    | _ => none
  else some 0

/-- The comparator body of `sortedData` (lines 57-80) on two cell values,
for a given column type and direction. -/
def cmpCells (typ : ColType) (dir : Dir) (a b : Value) : JNum :=
  match typ with
  | .num =>
    match dir with
    | .asc => jsub (numVal a) (numVal b)
    | .desc => jsub (numVal b) (numVal a)
  | .date =>
    match dir with
    | .asc => jsub (dateVal a) (dateVal b)
    | .desc => jsub (dateVal b) (dateVal a)
  | .str =>
    let sa := jsLower (toStr (if truthy a then a else .vStr ""))
    let sb := jsLower (toStr (if truthy b then b else .vStr ""))
    match dir with
    | .asc => orderingToJNum (strCmp sa sb)
    | .desc => orderingToJNum (strCmp sb sa)

/-- The type of the sort column: `columns.find(col => col.key ===
sortConfig.key) || {}` then `type || 'string'` (lines 53-54). -/
def colTypeFor (cols : List Column) (k : String) : ColType :=
  match cols.find? (fun c => c.key == k) with
  | some c => c.typ
  | none => .str

/-- `sortedData` (lines 48-83): the rows as given when no sort key is
active, otherwise a stable sort of a copy of the rows by the configured
column and direction. -/
def sortedData (data : List Row) (cols : List Column) (cfg : SortConfig) :
    List Row :=
  match cfg.key with
  | none => data
  | some k =>
    jsSortBy
      (fun a b => cmpCells (colTypeFor cols k) cfg.direction (rowGet a k) (rowGet b k))
      data

/-- `requestSort` (lines 86-118): activating the active column flips the
direction; activating a new column starts at `desc` for number/date
columns and `asc` for string columns. -/
def requestSort (cols : List Column) (key : String) (prev : SortConfig) :
    SortConfig :=
  let typ := colTypeFor cols key
  if prev.key == some key then
    match typ with
    | .num | .date =>
      { key := some key
        direction := if prev.direction = .desc then .asc else .desc }
    | .str =>
      { key := some key
        direction := if prev.direction = .asc then .desc else .asc }
  else
    match typ with
    | .num | .date => { key := some key, direction := .desc }
    | .str => { key := some key, direction := .asc }

/-- The visible cell values of one row in the non-virtualized body
(lines 293-310): `column.render ? column.render(row) : row[column.key]`. -/
def renderRowPlain (cols : List Column) (r : Row) : List Value :=
  cols.map fun c =>
    match c.render with
    | some f => f (.rowArg r)
    | none => rowGet r c.key

/-- The visible cell values of one row in the virtualized `RowRenderer`
(lines 219-242): `column.render ? column.render(row[column.key]) :
row[column.key]`. -/
def renderRowVirtual (cols : List Column) (r : Row) : List Value :=
  cols.map fun c =>
    match c.render with
    | some f => f (.valArg (rowGet r c.key))
    | none => rowGet r c.key

/-- Non-virtualized body output: every row rendered in order. -/
def renderBodyPlain (cols : List Column) (rows : List Row) :
    List (List Value) :=
  rows.map (renderRowPlain cols)

/-- Virtualized body output for the window of row indexes
`[start, stop)`: the rows intersecting the scroll viewport, rendered by
`RowRenderer` in order. A viewport that covers all rows is the window
`start = 0`, `stop ≥ rows.length`. -/
def renderBodyVirtual (cols : List Column) (rows : List Row)
    (start stop : ℕ) : List (List Value) :=
  ((rows.drop start).take (stop - start)).map (renderRowVirtual cols)

/-- Outcome of the CSV export: the empty-data early return, the catch
block, or the produced file content. -/
inductive ExportOutcome where
  | noData
  | failed
  | ok (content : String)
deriving DecidableEq, Repr

/-- CSV serialization of one already-computed cell value (lines 160-166):
null/undefined is an empty field, a string containing the delimiter is
quoted, anything else is `String(value)`. -/
def csvFormat (v : Value) : String :=
  match v with
  | .vNull => ""
  | .vUndefined => ""
  | .vStr s => if jsContainsChar s ',' then "\"" ++ s ++ "\"" else s
  | other => toStr other

/-- The CSV cell of a column and row (lines 142-167). Without a custom
renderer the raw value is formatted. With a renderer, a `number` column
first coerces the raw value with `Number(...)` (printing `NaN` for a
missing value), and a `date` column with a truthy raw value reformats it
as an ISO day string — where an invalid date makes `toISOString` throw,
modelled by `none` (the surrounding catch then reports a failure). -/
def csvCell (col : Column) (r : Row) : Option String :=
  let raw := rowGet r col.key
  match col.render with
  | none => some (csvFormat raw)
  | some _ =>
    match col.typ with
    | .num =>
      some (match toNumber raw with
        | none => "NaN"
        | some q => ratStr q)
    | .date =>
      if truthy raw then
        match raw with
        | .vStr s => (parseIsoDay s).map isoOfDay
        | .vNum q => some (isoOfDay ⌊q⌋)
        | _ => none
      else some (csvFormat raw)
    | .str => some (csvFormat raw)

/-- `exportToCSV` (lines 132-184): nothing to export on an empty row
collection; otherwise the header row of column display names followed by
one comma-joined line per row of the currently sorted view. -/
def exportToCSV (data : List Row) (cols : List Column) (cfg : SortConfig) :
    ExportOutcome :=
  if data.isEmpty then .noData
  else
    let rows := sortedData data cols cfg
    let cells := rows.map (fun r => cols.map (fun c => csvCell c r))
    if cells.any (fun row => row.any Option.isNone) then .failed
    else
      let headerRow := String.intercalate "," (cols.map Column.header)
      let dataRows :=
        String.intercalate "\n"
          (cells.map (fun row => String.intercalate "," (row.map (fun oc => oc.getD ""))))
      .ok (headerRow ++ "\n" ++ dataRows)

/-- `exportToJSON` (lines 187-216): nothing to export on an empty row
collection; otherwise one object per row of the currently sorted view,
keyed by column display name, holding the row's raw field values
(line 199, independent of any custom renderer). The serialized text is
abstracted to the structured list itself. -/
def exportToJSON (data : List Row) (cols : List Column) (cfg : SortConfig) :
    Option (List (List (String × Value))) :=
  if data.isEmpty then none
  else
    some ((sortedData data cols cfg).map
      (fun r => cols.map (fun c => (c.header, rowGet r c.key))))

/-- The mutable state of one table instance: the caller-supplied row
array and the private sort state. -/
structure TableState where
  data : List Row
  cfg : SortConfig

/-- The operations a user can perform on the table. -/
inductive TableOp where
  | click (key : String)
  | exportCSV
  | exportJSON

/-- Effect of one operation on the table state: a header click runs
`requestSort` (line 279); the exports read `data`/`sortedData` — a fresh
copy is sorted (line 57, `[...data].sort`) — and write no field. -/
def stepOp (cols : List Column) (s : TableState) : TableOp → TableState
  | .click k => { s with cfg := requestSort cols k s.cfg }
  | .exportCSV => s
  | .exportJSON => s

/-- Run a sequence of table operations. -/
def runOps (cols : List Column) (ops : List TableOp) (s : TableState) :
    TableState :=
  ops.foldl (stepOp cols) s

/-- Whether a value is a string. -/
def isStringV : Value → Bool
  | .vStr _ => true
  | _ => false

/-- The records that end up in the "My Transfers" ranking group: those
whose counterparty matches an alias, plus those whose counterparty
already stringifies to the canonical label. -/
def selfTransferP (aliases : List String) (t : Tx) : Bool :=
  isAliasMatch aliases t.partnerName || (toStr t.partnerName == "My Transfers")

/-! ## General lemmas: stable sort, grouping, the filling walk -/

theorem insertBy_pairwise {le : α → α → Bool}
    (htot : ∀ a b, le a b = true ∨ le b a = true)
    (htrans : ∀ a b c, le a b = true → le b c = true → le a c = true)
    (x : α) {l : List α} (hl : l.Pairwise (fun a b => le a b = true)) :
    (insertBy le x l).Pairwise (fun a b => le a b = true) := by
  induction l with
  | nil => simp [insertBy]
  | cons y ys ih =>
    rw [List.pairwise_cons] at hl
    obtain ⟨hy, hys⟩ := hl
    simp only [insertBy]
    cases hle : le y x
    · rw [if_neg (by simp)]
      have hxy : le x y = true := by
        rcases htot x y with h | h
        · exact h
        · rw [h] at hle; exact absurd hle (by simp)
      rw [List.pairwise_cons]
      refine ⟨?_, ?_⟩
      · intro z hz
        rw [List.mem_cons] at hz
        rcases hz with rfl | hz
        · exact hxy
        · exact htrans x y z hxy (hy z hz)
      · rw [List.pairwise_cons]
        exact ⟨hy, hys⟩
    · rw [if_pos rfl]
      rw [List.pairwise_cons]
      refine ⟨?_, ih hys⟩
      intro z hz
      have hz' : z ∈ x :: ys := (insertBy_perm le x ys).mem_iff.mp hz
      rw [List.mem_cons] at hz'
      rcases hz' with rfl | hz'
      · exact hle
      · exact hy z hz'

theorem stableSortBy_pairwise {le : α → α → Bool}
    (htot : ∀ a b, le a b = true ∨ le b a = true)
    (htrans : ∀ a b c, le a b = true → le b c = true → le a c = true)
    (l : List α) :
    (stableSortBy le l).Pairwise (fun a b => le a b = true) := by
  suffices h : ∀ acc : List α, acc.Pairwise (fun a b => le a b = true) →
      (l.foldl (fun acc x => insertBy le x acc) acc).Pairwise
        (fun a b => le a b = true) by
    exact h [] (by simp)
  induction l with
  | nil => intro acc hacc; simpa using hacc
  | cons x xs ih =>
    intro acc hacc
    exact ih (insertBy le x acc) (insertBy_pairwise htot htrans x hacc)

theorem pairwise_head_le {R : α → α → Prop} {l : List α} (h : l.Pairwise R)
    {a : α} (ha : l.head? = some a) {x : α} (hx : x ∈ l) : x = a ∨ R a x := by
  cases l with
  | nil => cases hx
  | cons b t =>
    obtain rfl : b = a := by simpa using ha
    rw [List.pairwise_cons] at h
    rw [List.mem_cons] at hx
    rcases hx with rfl | hx
    · exact Or.inl rfl
    · exact Or.inr (h.1 x hx)

theorem pairwise_getLast_le {R : α → α → Prop} {l : List α} (h : l.Pairwise R)
    {a : α} (ha : l.getLast? = some a) {x : α} (hx : x ∈ l) : x = a ∨ R x a := by
  induction l with
  | nil => cases hx
  | cons b t ih =>
    rw [List.pairwise_cons] at h
    cases t with
    | nil =>
      obtain rfl : b = a := by simpa using ha
      rw [List.mem_cons] at hx
      rcases hx with rfl | hx
      · exact Or.inl rfl
      · cases hx
    | cons c t' =>
      rw [List.getLast?_cons_cons] at ha
      rw [List.mem_cons] at hx
      rcases hx with rfl | hx
      · refine Or.inr (h.1 a ?_)
        have h1 : a ∈ (c :: t').getLast? := by rw [ha]; rfl
        obtain ⟨hne, rfl⟩ := List.mem_getLast?_eq_getLast h1
        exact List.getLast_mem hne
      · exact ih h.2 ha hx

theorem fillFrom_length (n : ℕ) (c : ℤ) (m : ℤ → Option ℚ) (b : ℚ) :
    (fillFrom n c m b).length = n := by
  induction n generalizing c b with
  | zero => rfl
  | succ k ih => simp [fillFrom, ih]

theorem fillFrom_ne_nil (n : ℕ) (c : ℤ) (m : ℤ → Option ℚ) (b : ℚ) :
    fillFrom (n + 1) c m b ≠ [] := by
  simp [fillFrom]

theorem fillFrom_fst (n : ℕ) (c : ℤ) (m : ℤ → Option ℚ) (b : ℚ)
    (i : ℕ) (hi : i < n) (p : ℤ × ℚ)
    (hp : (fillFrom n c m b)[i]? = some p) : p.1 = c + i := by
  induction n generalizing c b i with
  | zero => omega
  | succ k ih =>
    cases i with
    | zero =>
      simp only [fillFrom, List.getElem?_cons_zero] at hp
      cases hp
      simp
    | succ j =>
      simp only [fillFrom, List.getElem?_cons_succ] at hp
      have := ih (c + 1) ((m c).getD b) j (by omega) hp
      rw [this]
      push_cast
      ring

theorem fillFrom_rec (n : ℕ) (c : ℤ) (m : ℤ → Option ℚ) (b : ℚ)
    (i : ℕ) (hi : i < n) (p : ℤ × ℚ)
    (hp : (fillFrom n c m b)[i]? = some p)
    (v : ℚ) (hv : m (c + i) = some v) : p.2 = v := by
  induction n generalizing c b i with
  | zero => omega
  | succ k ih =>
    cases i with
    | zero =>
      simp only [fillFrom, List.getElem?_cons_zero] at hp
      cases hp
      have hv' : m c = some v := by simpa using hv
      simp [hv']
    | succ j =>
      simp only [fillFrom, List.getElem?_cons_succ] at hp
      refine ih (c + 1) ((m c).getD b) j (by omega) hp ?_
      rw [← hv]
      congr 1
      push_cast
      ring

theorem fillFrom_carry (n : ℕ) (c : ℤ) (m : ℤ → Option ℚ) (b : ℚ)
    (i : ℕ) (hi : i + 1 < n) (p q : ℤ × ℚ)
    (hp : (fillFrom n c m b)[i]? = some p)
    (hq : (fillFrom n c m b)[i + 1]? = some q)
    (hnone : m (c + (i + 1)) = none) : q.2 = p.2 := by
  induction n generalizing c b i with
  | zero => omega
  | succ k ih =>
    cases i with
    | zero =>
      cases k with
      | zero => omega
      | succ k' =>
        simp only [fillFrom, List.getElem?_cons_zero, List.getElem?_cons_succ] at hp hq
        cases hp
        cases hq
        have hm : m (c + 1) = none := by simpa using hnone
        simp [hm]
    | succ j =>
      simp only [fillFrom, List.getElem?_cons_succ] at hp hq
      refine ih (c + 1) ((m c).getD b) j (by omega) hp hq ?_
      rw [← hnone]
      congr 1
      push_cast
      ring

theorem fillFrom_getLast (n : ℕ) (c : ℤ) (m : ℤ → Option ℚ) (b : ℚ)
    (v : ℚ) (hv : m (c + n) = some v) :
    (fillFrom (n + 1) c m b).getLast? = some (c + n, v) := by
  induction n generalizing c b with
  | zero =>
    simp only [Nat.cast_zero, add_zero] at hv ⊢
    simp [fillFrom, hv]
  | succ k ih =>
    have hv' : m (c + 1 + k) = some v := by
      rw [← hv]; congr 1; push_cast; ring
    have hmem : ((c + 1 + (k : ℤ), v)) ∈
        (fillFrom (k + 1) (c + 1) m ((m c).getD b)).getLast? := by
      rw [ih (c + 1) ((m c).getD b) hv']; rfl
    show ((c, (m c).getD b) ::
      fillFrom (k + 1) (c + 1) m ((m c).getD b)).getLast? = some (c + ((k : ℕ) + 1 : ℕ), v)
    have h2 : (c + ((k : ℕ) + 1 : ℕ) : ℤ) = c + 1 + (k : ℤ) := by push_cast; ring
    rw [h2]
    exact Option.mem_def.mp (List.mem_getLast?_cons hmem)

theorem runningWrites_fst (l : List Tx) (b : ℚ) :
    (runningWrites l b).map Prod.fst = l.map dateKey := by
  induction l generalizing b with
  | nil => rfl
  | cons t rest ih => simp [runningWrites, ih]

theorem runningWrites_getLast (l : List Tx) (b : ℚ) (t : Tx)
    (hl : l.getLast? = some t) :
    (runningWrites l b).getLast? = some (dateKey t, b + (l.map amountQ).sum) := by
  induction l generalizing b with
  | nil => simp at hl
  | cons x rest ih =>
    cases rest with
    | nil =>
      obtain rfl : x = t := by simpa using hl
      simp [runningWrites]
    | cons y rest' =>
      rw [List.getLast?_cons_cons] at hl
      have htail := ih (b + amountQ x) hl
      have hmem : (dateKey t, b + amountQ x + ((y :: rest').map amountQ).sum) ∈
          (runningWrites (y :: rest') (b + amountQ x)).getLast? := by
        rw [htail]; rfl
      show ((dateKey x, b + amountQ x) ::
        runningWrites (y :: rest') (b + amountQ x)).getLast? =
        some (dateKey t, b + ((x :: y :: rest').map amountQ).sum)
      have h2 : b + ((x :: y :: rest').map amountQ).sum =
          b + amountQ x + ((y :: rest').map amountQ).sum := by
        simp [add_assoc]
      rw [h2]
      exact Option.mem_def.mp (List.mem_getLast?_cons hmem)

theorem getLast?_filter_key (ws : List (ℤ × ℚ)) (p : ℤ × ℚ)
    (hw : ws.getLast? = some p) (d : ℤ) (hd : p.1 = d) :
    (ws.filter (fun q => q.1 == d)).getLast? = some p := by
  induction ws with
  | nil => simp at hw
  | cons x rest ih =>
    cases rest with
    | nil =>
      obtain rfl : x = p := by simpa using hw
      simp [List.filter, hd]
    | cons y rest' =>
      rw [List.getLast?_cons_cons] at hw
      have htail := ih hw
      have hne : ((y :: rest').filter (fun q => q.1 == d)) ≠ [] := by
        intro hnil
        rw [hnil] at htail
        simp at htail
      rw [List.filter_cons]
      cases hx : (x.1 == d)
      · simpa using htail
      · simp only [if_pos rfl]
        have hmem : p ∈ ((y :: rest').filter (fun q => q.1 == d)).getLast? := by
          rw [htail]; rfl
        exact Option.mem_def.mp (List.mem_getLast?_cons hmem)

theorem upsert_keys (k : String) (x : α) (acc : List (String × List α)) :
    (upsert k x acc).map Prod.fst =
      if (acc.map Prod.fst).contains k then acc.map Prod.fst
      else acc.map Prod.fst ++ [k] := by
  induction acc with
  | nil => simp [upsert]
  | cons g rest ih =>
    obtain ⟨k', xs⟩ := g
    simp only [upsert]
    cases hk : (k' == k)
    · rw [if_neg (by decide)]
      have hne : k' ≠ k := by simpa using hk
      have hkk : (k == k') = false := by simpa using (Ne.symm hne)
      simp only [List.map_cons, List.contains_cons, ih, hkk, Bool.false_or]
      by_cases hc : ((rest.map Prod.fst).contains k) = true
      · rw [if_pos hc, if_pos hc]
      · rw [if_neg hc, if_neg hc]
        simp
    · rw [if_pos rfl]
      have he : k' = k := by simpa using hk
      subst he
      simp [List.contains_cons]

theorem upsert_find (k : String) (x : α) (acc : List (String × List α))
    (k₀ : String) :
    (upsert k x acc).find? (fun g => g.1 == k₀) =
      if (k == k₀) = true then
        match acc.find? (fun g => g.1 == k₀) with
        | some g => some (g.1, g.2 ++ [x])
        | none => some (k, [x])
      else acc.find? (fun g => g.1 == k₀) := by
  induction acc with
  | nil =>
    simp only [upsert, List.find?_nil]
    by_cases hk : (k == k₀) = true
    · simp [List.find?, hk]
    · simp [List.find?, hk]
  | cons g rest ih =>
    obtain ⟨k', xs⟩ := g
    simp only [upsert]
    cases hk' : (k' == k)
    · rw [if_neg (by decide)]
      rw [List.find?_cons, List.find?_cons]
      cases hk0 : ((k', xs).1 == k₀)
      · simp [hk0, ih]
      · have e1 : k' = k₀ := by simpa using hk0
        have hkk : ¬ ((k == k₀) = true) := by
          intro h
          have e2 : k = k₀ := by simpa using h
          rw [e1, ← e2] at hk'
          simp at hk'
        simp [hk0, hkk]
    · rw [if_pos rfl]
      have he : k' = k := by simpa using hk'
      subst he
      rw [List.find?_cons, List.find?_cons]
      cases hk0 : ((k', xs).1 == k₀)
      · simp [hk0, ih]
      · have hpos : (k' == k₀) = true := by simpa using hk0
        simp [hk0, hpos]

theorem jsGroupBy_keys_nodup (key : α → String) (l : List α) :
    ((jsGroupBy key l).map Prod.fst).Nodup := by
  suffices h : ∀ acc : List (String × List α), ((acc.map Prod.fst)).Nodup →
      (((l.foldl (fun acc x => upsert (key x) x acc) acc).map Prod.fst)).Nodup by
    exact h [] (by simp)
  induction l with
  | nil => intro acc hacc; simpa using hacc
  | cons x xs ih =>
    intro acc hacc
    refine ih (upsert (key x) x acc) ?_
    rw [upsert_keys]
    by_cases hc : ((acc.map Prod.fst).contains (key x)) = true
    · rw [if_pos hc]; exact hacc
    · rw [if_neg hc]
      rw [List.nodup_append]
      refine ⟨hacc, List.nodup_singleton _, ?_⟩
      intro a ha hmem
      have : a = key x := by simpa using hmem
      subst this
      exact hc (by simpa [List.elem_iff] using ha)

theorem jsGroupBy_find (key : α → String) (l : List α) (k : String) :
    (jsGroupBy key l).find? (fun g => g.1 == k) =
      if (l.filter (fun x => key x == k)).isEmpty then none
      else some (k, l.filter (fun x => key x == k)) := by
  suffices h : ∀ acc : List (String × List α),
      (l.foldl (fun acc x => upsert (key x) x acc) acc).find? (fun g => g.1 == k) =
        match acc.find? (fun g => g.1 == k) with
        | some g => some (g.1, g.2 ++ l.filter (fun x => key x == k))
        | none =>
          if (l.filter (fun x => key x == k)).isEmpty then none
          else some (k, l.filter (fun x => key x == k)) by
    simpa using h []
  induction l with
  | nil =>
    intro acc
    simp only [List.foldl_nil, List.filter_nil]
    cases hf : acc.find? (fun g => g.1 == k)
    · simp
    · simp
  | cons x xs ih =>
    intro acc
    simp only [List.foldl_cons, List.filter_cons]
    rw [ih (upsert (key x) x acc), upsert_find]
    cases hkx : (key x == k)
    · cases hf : acc.find? (fun g => g.1 == k) <;> simp [hf]
    · have hke : key x = k := by simpa using hkx
      cases hf : acc.find? (fun g => g.1 == k)
      · simp [hf, hke]
      · simp [hf, List.append_assoc]

theorem assoc_filter_eq_find (gs : List (String × List α)) (k : String)
    (hnd : (gs.map Prod.fst).Nodup) :
    gs.filter (fun g => g.1 == k) =
      match gs.find? (fun g => g.1 == k) with
      | some g => [g]
      | none => [] := by
  induction gs with
  | nil => simp
  | cons g rest ih =>
    simp only [List.map_cons, List.nodup_cons] at hnd
    rw [List.filter_cons, List.find?_cons]
    cases hk : (g.1 == k)
    · simpa using ih hnd.2
    · have hke : g.1 = k := by simpa using hk
      simp only [if_pos rfl]
      have hrest : rest.filter (fun h => h.1 == k) = [] := by
        refine List.filter_eq_nil_iff.mpr ?_
        intro h hmem
        intro hhk
        have hh : h.1 = k := by simpa using hhk
        exact hnd.1 (by
          rw [hke, ← hh]
          exact List.mem_map_of_mem Prod.fst hmem)
      simp [hrest]

theorem upsert_groups_sum (f : α → ℚ) (k : String) (x : α)
    (acc : List (String × List α)) :
    ((upsert k x acc).map (fun g => ((g.2.map f).sum))).sum =
      ((acc.map (fun g => ((g.2.map f).sum))).sum) + f x := by
  induction acc with
  | nil => simp [upsert]
  | cons g rest ih =>
    obtain ⟨k', xs⟩ := g
    simp only [upsert]
    cases hk : (k' == k)
    · rw [if_neg (by decide)]
      simp only [List.map_cons, List.sum_cons, ih]
      ring
    · rw [if_pos rfl]
      simp only [List.map_cons, List.sum_cons, List.map_append, List.sum_append]
      simp
      ring

theorem jsGroupBy_sum (f : α → ℚ) (key : α → String) (l : List α) :
    ((jsGroupBy key l).map (fun g => ((g.2.map f).sum))).sum = (l.map f).sum := by
  suffices h : ∀ acc : List (String × List α),
      (((l.foldl (fun acc x => upsert (key x) x acc) acc).map
        (fun g => ((g.2.map f).sum))).sum) =
        ((acc.map (fun g => ((g.2.map f).sum))).sum) + (l.map f).sum by
    simpa using h []
  induction l with
  | nil => intro acc; simp
  | cons x xs ih =>
    intro acc
    simp only [List.foldl_cons, List.map_cons, List.sum_cons]
    rw [ih (upsert (key x) x acc), upsert_groups_sum]
    ring

theorem inflow_add_outflow (t : Tx) : inflowOf t + outflowOf t = amountQ t := by
  cases h : t.amount with
  | none => simp [inflowOf, outflowOf, amountQ, h]
  | some a =>
    simp only [inflowOf, outflowOf, amountQ, h, Option.getD_some]
    split_ifs <;> linarith

theorem netFlow_eq_sum (txs : List Tx) :
    netFlow txs = (txs.map amountQ).sum := by
  simp only [netFlow, inflows, outflows]
  induction txs with
  | nil => simp
  | cons t rest ih =>
    simp only [List.map_cons, List.sum_cons]
    have := inflow_add_outflow t
    linarith

theorem sortedTransactions_perm (txs : List Tx) :
    (sortedTransactions txs).Perm txs :=
  stableSortBy_perm _ txs

theorem sortedTransactions_pairwise (txs : List Tx) :
    (sortedTransactions txs).Pairwise (fun a b => dateKey a ≤ dateKey b) := by
  have htot : ∀ a b : Tx, (decide (dateKey a ≤ dateKey b)) = true ∨
      (decide (dateKey b ≤ dateKey a)) = true := by
    intro a b
    rcases le_total (dateKey a) (dateKey b) with h | h
    · exact Or.inl (decide_eq_true h)
    · exact Or.inr (decide_eq_true h)
  have htrans : ∀ a b c : Tx, decide (dateKey a ≤ dateKey b) = true →
      decide (dateKey b ≤ dateKey c) = true →
      decide (dateKey a ≤ dateKey c) = true := by
    intro a b c hab hbc
    exact decide_eq_true (le_trans (of_decide_eq_true hab) (of_decide_eq_true hbc))
  have h := stableSortBy_pairwise htot htrans txs
  exact h.imp (fun hab => of_decide_eq_true hab)

theorem allDates_pairwise (txs : List Tx) :
    (allDates txs).Pairwise (fun a b : ℤ => a ≤ b) := by
  have htot : ∀ a b : ℤ, (decide (a ≤ b)) = true ∨ (decide (b ≤ a)) = true := by
    intro a b
    rcases le_total a b with h | h
    · exact Or.inl (decide_eq_true h)
    · exact Or.inr (decide_eq_true h)
  have htrans : ∀ a b c : ℤ, decide (a ≤ b) = true → decide (b ≤ c) = true →
      decide (a ≤ c) = true := by
    intro a b c hab hbc
    exact decide_eq_true (le_trans (of_decide_eq_true hab) (of_decide_eq_true hbc))
  have h := stableSortBy_pairwise htot htrans
    (((runningWrites (sortedTransactions txs) 0).map Prod.fst).dedup)
  exact h.imp (fun hab => of_decide_eq_true hab)

theorem mem_allDates_iff (txs : List Tx) (z : ℤ) :
    z ∈ allDates txs ↔ z ∈ (sortedTransactions txs).map dateKey := by
  unfold allDates
  rw [(stableSortBy_perm _ _).mem_iff, List.mem_dedup, runningWrites_fst]

theorem allDates_ne_nil (txs : List Tx) (hne : txs ≠ []) :
    allDates txs ≠ [] := by
  obtain ⟨t, ht⟩ := List.exists_mem_of_ne_nil txs hne
  have htS : t ∈ sortedTransactions txs := (sortedTransactions_perm txs).mem_iff.mpr ht
  have : dateKey t ∈ allDates txs :=
    (mem_allDates_iff txs (dateKey t)).mpr (List.mem_map_of_mem dateKey htS)
  exact List.ne_nil_of_mem this

theorem endDay_eq_last_tx (txs : List Tx) (hne : txs ≠ []) :
    ∃ tL, (sortedTransactions txs).getLast? = some tL ∧
      (allDates txs).getLast? = some (dateKey tL) := by
  have hSne : sortedTransactions txs ≠ [] := by
    intro h
    have hp := sortedTransactions_perm txs
    rw [h] at hp
    exact hne hp.symm.eq_nil
  refine ⟨(sortedTransactions txs).getLast hSne,
    List.getLast?_eq_getLast_of_ne_nil hSne, ?_⟩
  have hDne : allDates txs ≠ [] := allDates_ne_nil txs hne
  have hD1 := List.getLast?_eq_getLast_of_ne_nil hDne
  set tL := (sortedTransactions txs).getLast hSne with htL
  set d1 := (allDates txs).getLast hDne with hd1
  rw [hD1]
  -- d1 ≤ dateKey tL : d1 is the date of some record, every record date is
  -- at most the date of the last record of the ascending sort
  have hd1mem : d1 ∈ allDates txs := List.getLast_mem hDne
  obtain ⟨t, htS, hts⟩ := List.mem_map.mp ((mem_allDates_iff txs d1).mp hd1mem)
  have h1 : d1 ≤ dateKey tL := by
    rcases pairwise_getLast_le (sortedTransactions_pairwise txs)
        (List.getLast?_eq_getLast_of_ne_nil hSne) htS with h | h
    · rw [← hts, h]
    · rw [← hts]; exact h
  -- dateKey tL ≤ d1 : the date of the last record is one of the keys,
  -- and d1 is the last of the ascending key list
  have htLmem : dateKey tL ∈ allDates txs :=
    (mem_allDates_iff txs (dateKey tL)).mpr
      (List.mem_map_of_mem dateKey (List.getLast_mem hSne))
  have h2 : dateKey tL ≤ d1 := by
    rcases pairwise_getLast_le (allDates_pairwise txs) hD1 htLmem with h | h
    · rw [h]
    · exact h
  have : d1 = dateKey tL := le_antisymm h1 h2
  rw [this]

theorem dailyBalances_at_end (txs : List Tx) (hne : txs ≠ []) (d1 : ℤ)
    (hd1 : (allDates txs).getLast? = some d1) :
    dailyBalances txs d1 = some ((txs.map amountQ).sum) := by
  obtain ⟨tL, htL, hd1'⟩ := endDay_eq_last_tx txs hne
  have : d1 = dateKey tL := by
    rw [hd1] at hd1'
    exact Option.some.inj hd1' 
  subst this
  have hW := runningWrites_getLast (sortedTransactions txs) 0 tL htL
  unfold dailyBalances lastWrite
  rw [getLast?_filter_key _ _ hW (dateKey tL) rfl]
  have hsum : ((sortedTransactions txs).map amountQ).sum = (txs.map amountQ).sum :=
    ((sortedTransactions_perm txs).map amountQ).sum_eq
  simp [hsum]

/-! ## Claim theorems -/

/-- C1: for every non-empty input in which every amount is a number (and,
as required for the analysis to produce its series at all, every booking
date parses), the inflow total plus the outflow total equals the net
flow, and the net flow equals the balance of the last entry of the
gap-filled daily balance series. -/
theorem C1_netflow_matches_last_daily_balance (txs : List Tx)
    (hne : txs ≠ [])
    (hamounts : ∀ t ∈ txs, t.amount.isSome)
    (hdates : ∀ t ∈ txs, t.bookingDate.isSome) :
    inflows txs + outflows txs = netFlow txs ∧
    ∃ p : ℤ × ℚ, (allDailyBalances txs).getLast? = some p ∧
      p.2 = netFlow txs := by
  refine ⟨rfl, ?_⟩
  have hDne := allDates_ne_nil txs hne
  have hd0 := List.head?_eq_head hDne
  have hd1 := List.getLast?_eq_getLast_of_ne_nil hDne
  set d0 := (allDates txs).head hDne with hd0def
  set d1 := (allDates txs).getLast hDne with hd1def
  have hfill : allDailyBalances txs =
      fillFrom ((d1 - d0).toNat + 1) d0 (dailyBalances txs) 0 := by
    unfold allDailyBalances
    rw [hd0, hd1]
  have hle : d0 ≤ d1 := by
    rcases pairwise_getLast_le (allDates_pairwise txs) hd1
        (List.head_mem hDne) with h | h
    · exact le_of_eq (hd0def.trans h)
    · exact h
  have hd0n : d0 + ((d1 - d0).toNat : ℤ) = d1 := by omega
  have hv : dailyBalances txs (d0 + ((d1 - d0).toNat : ℤ)) =
      some ((txs.map amountQ).sum) := by
    rw [hd0n]
    exact dailyBalances_at_end txs hne d1 hd1
  refine ⟨(d0 + ((d1 - d0).toNat : ℤ), (txs.map amountQ).sum), ?_, ?_⟩
  · rw [hfill]
    exact fillFrom_getLast ((d1 - d0).toNat) d0 (dailyBalances txs) 0 _ hv
  · exact (netFlow_eq_sum txs).symm

/-- C2: for every non-empty input whose booking dates all parse, the
gap-filled series runs in steps of exactly one calendar day from the
earliest to the latest transaction day, has exactly
`(latest - earliest) + 1` entries, uses the recorded balance on recorded
days, and carries the previous balance forward on unrecorded days, the
walk starting from a last-known balance of `0`. -/
theorem C2_daily_series_gap_free (txs : List Tx) (hne : txs ≠ [])
    (hdates : ∀ t ∈ txs, t.bookingDate.isSome) :
    ∃ d0 d1 : ℤ,
      (allDates txs).head? = some d0 ∧
      (allDates txs).getLast? = some d1 ∧
      (∀ t ∈ txs, ∀ d, t.bookingDate = some d → d0 ≤ d ∧ d ≤ d1) ∧
      (∃ t ∈ txs, t.bookingDate = some d0) ∧
      (∃ t ∈ txs, t.bookingDate = some d1) ∧
      allDailyBalances txs =
        fillFrom ((d1 - d0).toNat + 1) d0 (dailyBalances txs) 0 ∧
      (allDailyBalances txs).length = (d1 - d0).toNat + 1 ∧
      (∀ (i : ℕ) (p : ℤ × ℚ), (allDailyBalances txs)[i]? = some p →
        p.1 = d0 + i) ∧
      (∀ (i : ℕ) (p : ℤ × ℚ) (v : ℚ), (allDailyBalances txs)[i]? = some p →
        dailyBalances txs (d0 + i) = some v → p.2 = v) ∧
      (∀ (i : ℕ) (p q : ℤ × ℚ), (allDailyBalances txs)[i]? = some p →
        (allDailyBalances txs)[i + 1]? = some q →
        dailyBalances txs (d0 + (i + 1 : ℕ)) = none → q.2 = p.2) := by
  have hDne := allDates_ne_nil txs hne
  have hd0 := List.head?_eq_head hDne
  have hd1 := List.getLast?_eq_getLast_of_ne_nil hDne
  set d0 := (allDates txs).head hDne with hd0def
  set d1 := (allDates txs).getLast hDne with hd1def
  have hfill : allDailyBalances txs =
      fillFrom ((d1 - d0).toNat + 1) d0 (dailyBalances txs) 0 := by
    unfold allDailyBalances
    rw [hd0, hd1]
  have hlen : (allDailyBalances txs).length = (d1 - d0).toNat + 1 := by
    rw [hfill, fillFrom_length]
  refine ⟨d0, d1, hd0, hd1, ?_, ?_, ?_, hfill, hlen, ?_, ?_, ?_⟩
  · intro t ht d hd
    have htS : t ∈ sortedTransactions txs :=
      (sortedTransactions_perm txs).mem_iff.mpr ht
    have hdk : dateKey t = d := by simp [dateKey, hd]
    have hmem : d ∈ allDates txs := by
      rw [← hdk]
      exact (mem_allDates_iff txs (dateKey t)).mpr
        (List.mem_map_of_mem dateKey htS)
    constructor
    · rcases pairwise_head_le (allDates_pairwise txs) hd0 hmem with h | h
      · rw [h]
      · exact h
    · rcases pairwise_getLast_le (allDates_pairwise txs) hd1 hmem with h | h
      · rw [h]
      · exact h
  · have hmem : d0 ∈ allDates txs := List.head_mem hDne
    obtain ⟨t, htS, hts⟩ := List.mem_map.mp ((mem_allDates_iff txs d0).mp hmem)
    refine ⟨t, (sortedTransactions_perm txs).mem_iff.mp htS, ?_⟩
    have hsome := hdates t ((sortedTransactions_perm txs).mem_iff.mp htS)
    obtain ⟨d, hd⟩ := Option.isSome_iff_exists.mp hsome
    rw [hd]
    have : dateKey t = d := by simp [dateKey, hd]
    rw [← hts, this]
  · have hmem : d1 ∈ allDates txs := List.getLast_mem hDne
    obtain ⟨t, htS, hts⟩ := List.mem_map.mp ((mem_allDates_iff txs d1).mp hmem)
    refine ⟨t, (sortedTransactions_perm txs).mem_iff.mp htS, ?_⟩
    have hsome := hdates t ((sortedTransactions_perm txs).mem_iff.mp htS)
    obtain ⟨d, hd⟩ := Option.isSome_iff_exists.mp hsome
    rw [hd]
    have : dateKey t = d := by simp [dateKey, hd]
    rw [← hts, this]
  · intro i p hp
    have hi : i < (allDailyBalances txs).length := by
      by_contra hnot
      rw [List.getElem?_eq_none (by omega)] at hp
      cases hp
    rw [hfill] at hp
    rw [hlen] at hi
    exact fillFrom_fst _ d0 (dailyBalances txs) 0 i hi p hp
  · intro i p v hp hv
    have hi : i < (allDailyBalances txs).length := by
      by_contra hnot
      rw [List.getElem?_eq_none (by omega)] at hp
      cases hp
    rw [hfill] at hp
    rw [hlen] at hi
    exact fillFrom_rec _ d0 (dailyBalances txs) 0 i hi p hp v hv
  · intro i p q hp hq hnone
    have hi : i + 1 < (allDailyBalances txs).length := by
      by_contra hnot
      rw [List.getElem?_eq_none (by omega)] at hq
      cases hq
    rw [hfill] at hp hq
    rw [hlen] at hi
    exact fillFrom_carry _ d0 (dailyBalances txs) 0 i hi p q hp hq hnone

/-- C6: on the empty input the analysis throws before assembling any
result object (`minDate` is `undefined`, so `minDate.toISOString()` at
line 292 raises), and the catch block reports a distinguishable failure;
no result object — partial or NaN-carrying — is produced. -/
theorem C6_empty_input_is_failure :
    analyze [] =
      Except.error
        "Failed to process financial data: Cannot read properties of undefined" ∧
    ∀ r : AnalysisResult, analyze [] ≠ Except.ok r := by
  refine ⟨rfl, ?_⟩
  intro r h
  rw [show analyze [] = Except.error
      "Failed to process financial data: Cannot read properties of undefined"
    from rfl] at h
  cases h

/-- C4: the component hard-codes the initial sort state to
`{key: null, direction: 'asc'}` and never reads the `defaultSortKey` /
`defaultSortDirection` props its caller passes, so at the failing input —
the dashboard's all-transactions table, which passes
`defaultSortKey="Booking Date"`, `defaultSortDirection="desc"` — the
initial state is unsorted instead of the supplied pair. -/
theorem C4_initial_sort_ignores_defaults :
    (∀ (k : Option String) (d : Option Dir),
      initSortConfig k d = { key := none, direction := Dir.asc }) ∧
    initSortConfig (some "Booking Date") (some Dir.desc) ≠
      { key := some "Booking Date", direction := Dir.desc } := by
  refine ⟨fun k d => rfl, ?_⟩
  intro h
  cases h

/-- C10: no sequence of header activations and exports changes the
caller-supplied row collection: a header click only replaces the private
sort state, and the exports sort a fresh copy of the rows. -/
theorem C10_table_ops_preserve_input (cols : List Column)
    (ops : List TableOp) (s : TableState) :
    (runOps cols ops s).data = s.data := by
  induction ops generalizing s with
  | nil => rfl
  | cons op rest ih =>
    have hstep : (stepOp cols s op).data = s.data := by
      cases op <;> rfl
    calc (runOps cols (op :: rest) s).data
        = (runOps cols rest (stepOp cols s op)).data := rfl
      _ = (stepOp cols s op).data := ih (stepOp cols s op)
      _ = s.data := hstep

/-- C3 counterexample: with a custom cell renderer the two modes pass
different arguments (the row object versus the raw cell value), so a
renderer that distinguishes them produces different visible output even
though the viewport covers the single row and the sort state is shared. -/
theorem C3_counterexample :
    renderBodyPlain
        [{ key := "x", header := "X", typ := ColType.num,
           render := some (fun a =>
             match a with
             | .rowArg _ => Value.vStr "row"
             | .valArg v => v) }]
        (sortedData [[("x", Value.vNum 1)]]
          [{ key := "x", header := "X", typ := ColType.num,
             render := some (fun a =>
               match a with
               | .rowArg _ => Value.vStr "row"
               | .valArg v => v) }]
          { key := none, direction := Dir.asc }) ≠
      renderBodyVirtual
        [{ key := "x", header := "X", typ := ColType.num,
           render := some (fun a =>
             match a with
             | .rowArg _ => Value.vStr "row"
             | .valArg v => v) }]
        (sortedData [[("x", Value.vNum 1)]]
          [{ key := "x", header := "X", typ := ColType.num,
             render := some (fun a =>
               match a with
               | .rowArg _ => Value.vStr "row"
               | .valArg v => v) }]
          { key := none, direction := Dir.asc }) 0 1 := by
  decide

/-- C3 amended: when no column has a custom cell renderer (both modes
then show `row[column.key]`), the virtualized mode with a viewport
covering all rows renders row-for-row exactly the non-virtualized
output, in the same sorted order. -/
theorem C3_modes_agree_without_renderers (data : List Row)
    (cols : List Column) (cfg : SortConfig) (stop : ℕ)
    (hrender : ∀ c ∈ cols, c.render.isNone)
    (hstop : (sortedData data cols cfg).length ≤ stop) :
    renderBodyPlain cols (sortedData data cols cfg) =
      renderBodyVirtual cols (sortedData data cols cfg) 0 stop := by
  unfold renderBodyPlain renderBodyVirtual
  rw [List.drop_zero, Nat.sub_zero, List.take_of_length_le hstop]
  apply List.map_congr_left
  intro r hr
  unfold renderRowPlain renderRowVirtual
  apply List.map_congr_left
  intro c hc
  have hn := hrender c hc
  rw [Option.isNone_iff_eq_none] at hn
  rw [hn]

/-- C3 witness: the amended theorem applied to a concrete one-column,
one-row table with no custom renderer. -/
theorem C3_witness :
    (∀ c ∈ ([{ key := "x", header := "X", typ := ColType.num, render := none }] :
        List Column), c.render.isNone) ∧
    (sortedData [[("x", Value.vNum 1)]]
        [{ key := "x", header := "X", typ := ColType.num, render := none }]
        { key := none, direction := Dir.asc }).length ≤ 1 ∧
    renderBodyPlain
        [{ key := "x", header := "X", typ := ColType.num, render := none }]
        (sortedData [[("x", Value.vNum 1)]]
          [{ key := "x", header := "X", typ := ColType.num, render := none }]
          { key := none, direction := Dir.asc }) =
      renderBodyVirtual
        [{ key := "x", header := "X", typ := ColType.num, render := none }]
        (sortedData [[("x", Value.vNum 1)]]
          [{ key := "x", header := "X", typ := ColType.num, render := none }]
          { key := none, direction := Dir.asc }) 0 1 :=
  ⟨by decide, by decide,
    C3_modes_agree_without_renderers [[("x", Value.vNum 1)]]
      [{ key := "x", header := "X", typ := ColType.num, render := none }]
      { key := none, direction := Dir.asc } 1 (by decide) (by decide)⟩

theorem charCmp_self (c : Char) : charCmp c c = .eq := by
  simp [charCmp]

theorem listCmp_self (cs : List Char) : listCmp cs cs = .eq := by
  induction cs with
  | nil => rfl
  | cons c rest ih => simp [listCmp, charCmp_self, ih]

theorem strCmp_self (s : String) : strCmp s s = .eq := listCmp_self s.data

theorem strKey_eq_lower (a : String) :
    jsLower (toStr (if truthy (Value.vStr a) then Value.vStr a else Value.vStr "")) =
      jsLower a := by
  by_cases h : a = ""
  · subst h; rfl
  · have : truthy (Value.vStr a) = true := by simp [truthy, h]
    rw [this]
    rfl

/-- C5 counterexample: a non-empty unparseable date value does not get
the epoch key — its key is `NaN` — and under a descending date sort the
unparseable row keeps its position in front of a parseable one, whereas
an epoch key (0, less than any 2024 time value) would have to sort after
it. -/
theorem C5_counterexample :
    truthy (Value.vStr "zz") = true ∧
    dateVal (Value.vStr "zz") = none ∧
    dateVal (Value.vStr "zz") ≠ some 0 ∧
    dateVal (Value.vStr "2024-01-05") = some 19727 ∧
    sortedData [[("d", Value.vStr "zz")], [("d", Value.vStr "2024-01-05")]]
        [{ key := "d", header := "D", typ := ColType.date, render := none }]
        { key := some "d", direction := Dir.desc } =
      [[("d", Value.vStr "zz")], [("d", Value.vStr "2024-01-05")]] := by
  refine ⟨rfl, rfl, by decide, ?_, rfl⟩
  have h1 : parseIsoDay "2024-01-05" = some 19727 := by decide
  show (parseIsoDay "2024-01-05").map (fun z => (z : ℚ)) = some 19727
  rw [h1]
  norm_num

/-- C5 amended: number sorting keys a missing value as 0 and date
sorting keys a missing (falsy) value as the epoch, as claimed; but a
non-empty unparseable date value is keyed `NaN`, which makes every
comparison against it `NaN` — a tie for the stable sort, leaving the
relative order unchanged — rather than comparing as the epoch. String
sorting lowercases both sides first and is case-insensitive. -/
theorem C5_sort_key_coercions :
    (numVal Value.vNull = some 0 ∧ numVal Value.vUndefined = some 0) ∧
    (dateVal Value.vNull = some 0 ∧ dateVal Value.vUndefined = some 0) ∧
    (∀ s : String, s ≠ "" → parseIsoDay s = none →
      dateVal (Value.vStr s) = none) ∧
    (∀ (dir : Dir) (v w : Value), dateVal v = none →
      cmpCells ColType.date dir v w = none ∧
      cmpCells ColType.date dir w v = none) ∧
    (∀ (r₁ r₂ : Row) (k : String) (dir : Dir),
      cmpCells ColType.date dir (rowGet r₁ k) (rowGet r₂ k) = none →
      jsSortBy (fun a b => cmpCells ColType.date dir (rowGet a k) (rowGet b k))
        [r₁, r₂] = [r₁, r₂]) ∧
    (∀ (a b : String) (dir : Dir), jsLower a = jsLower b →
      cmpCells ColType.str dir (Value.vStr a) (Value.vStr b) = some 0) := by
  refine ⟨⟨rfl, rfl⟩, ⟨rfl, rfl⟩, ?_, ?_, ?_, ?_⟩
  · intro s hs hp
    simp [dateVal, truthy, hs, hp]
  · intro dir v w h
    cases hw : dateVal w <;> cases dir <;> simp [cmpCells, jsub, h, hw]
  · intro r₁ r₂ k dir h
    simp [jsSortBy, stableSortBy, insertBy, cmpLe, h]
  · intro a b dir hab
    have ha := strKey_eq_lower a
    have hb := strKey_eq_lower b
    cases dir
    · show orderingToJNum (strCmp
        (jsLower (toStr (if truthy (Value.vStr a) then Value.vStr a else Value.vStr "")))
        (jsLower (toStr (if truthy (Value.vStr b) then Value.vStr b else Value.vStr "")))) = some 0
      rw [ha, hb, hab, strCmp_self]
      rfl
    · show orderingToJNum (strCmp
        (jsLower (toStr (if truthy (Value.vStr b) then Value.vStr b else Value.vStr "")))
        (jsLower (toStr (if truthy (Value.vStr a) then Value.vStr a else Value.vStr "")))) = some 0
      rw [ha, hb, hab, strCmp_self]
      rfl

/-- C5 witness: the amended theorem applied at concrete inputs — an
unparseable non-empty date string, a NaN tie between two concrete rows,
and two strings differing only in case. -/
theorem C5_witness :
    (("zy" : String) ≠ "" ∧ parseIsoDay "zy" = none ∧
      dateVal (Value.vStr "zy") = none) ∧
    (cmpCells ColType.date Dir.asc (rowGet [("d", Value.vStr "zy")] "d")
        (rowGet [("d", Value.vStr "1999-12-31")] "d") = none ∧
      jsSortBy (fun a b => cmpCells ColType.date Dir.asc
          (rowGet a "d") (rowGet b "d"))
        [[("d", Value.vStr "zy")], [("d", Value.vStr "1999-12-31")]] =
        [[("d", Value.vStr "zy")], [("d", Value.vStr "1999-12-31")]]) ∧
    (jsLower "AbC" = jsLower "aBC" ∧
      cmpCells ColType.str Dir.asc (Value.vStr "AbC") (Value.vStr "aBC") =
        some 0) :=
  ⟨⟨by decide, by decide,
      C5_sort_key_coercions.2.2.1 "zy" (by decide) (by decide)⟩,
    ⟨by decide,
      C5_sort_key_coercions.2.2.2.2.1 [("d", Value.vStr "zy")]
        [("d", Value.vStr "1999-12-31")] "d" Dir.asc (by decide)⟩,
    ⟨by decide,
      C5_sort_key_coercions.2.2.2.2.2 "AbC" "aBC" Dir.asc (by decide)⟩⟩

/-- C7 counterexample: in a column that has both a custom renderer and
number type, the CSV export first coerces the raw value with
`Number(...)`, so a `null` cell serializes as `0` instead of the empty
field the claim requires. -/
theorem C7_counterexample :
    exportToCSV [[("a", Value.vNull)]]
        [{ key := "a", header := "A", typ := ColType.num,
           render := some (fun _ => Value.vNull) }]
        { key := none, direction := Dir.asc } = ExportOutcome.ok "A\n0" ∧
    ("A\n0" : String) ≠ "A\n" := by
  exact ⟨rfl, by decide⟩

/-- C7 amended: empty collections make both exports report "no data" and
produce nothing; the structured export serializes the currently sorted
view keyed by display name with raw field values; the delimited export
emits an empty field for null/undefined and quotes delimiter-containing
strings in columns without a renderer, while a renderer on a
number-typed column coerces null to `0` first. -/
theorem C7_export_formats :
    (∀ (cols : List Column) (cfg : SortConfig),
      exportToCSV [] cols cfg = ExportOutcome.noData ∧
      exportToJSON [] cols cfg = none) ∧
    (∀ (data : List Row) (cols : List Column) (cfg : SortConfig),
      data ≠ [] →
      exportToJSON data cols cfg =
        some ((sortedData data cols cfg).map
          (fun r => cols.map (fun c => (c.header, rowGet r c.key))))) ∧
    (∀ (col : Column) (r : Row), col.render = none →
      (rowGet r col.key = Value.vNull ∨ rowGet r col.key = Value.vUndefined) →
      csvCell col r = some "") ∧
    (∀ (col : Column) (r : Row) (s : String), col.render = none →
      rowGet r col.key = Value.vStr s → jsContainsChar s ',' = true →
      csvCell col r = some ("\"" ++ s ++ "\"")) ∧
    (∀ (k h : String) (f : RenderArg → Value) (r : Row),
      rowGet r k = Value.vNull →
      csvCell { key := k, header := h, typ := ColType.num, render := some f }
        r = some "0") := by
  refine ⟨fun cols cfg => ⟨rfl, rfl⟩, ?_, ?_, ?_, ?_⟩
  · intro data cols cfg hne
    have he : data.isEmpty = false := by
      cases data
      · exact absurd rfl hne
      · rfl
    simp [exportToJSON, he]
  · intro col r hrend hval
    rcases hval with h | h <;> simp [csvCell, hrend, h, csvFormat]
  · intro col r s hrend hval hcomma
    simp [csvCell, hrend, hval, csvFormat, hcomma]
  · intro k h f r hnull
    simp [csvCell, hnull]
    rfl

/-- C7 witness: the amended theorem applied to concrete tables — a
non-empty table for the structured export, a null cell and a
comma-containing cell without renderer, and a null cell in a
renderer-plus-number column. -/
theorem C7_witness :
    (([[("a", Value.vNum 1)]] : List Row) ≠ [] ∧
      exportToJSON [[("a", Value.vNum 1)]]
          [{ key := "a", header := "A", typ := ColType.num, render := none }]
          { key := none, direction := Dir.asc } =
        some ((sortedData [[("a", Value.vNum 1)]]
            [{ key := "a", header := "A", typ := ColType.num, render := none }]
            { key := none, direction := Dir.asc }).map
          (fun r =>
            [({ key := "a", header := "A", typ := ColType.num,
                render := none } : Column)].map
              (fun c => (c.header, rowGet r c.key))))) ∧
    (csvCell { key := "a", header := "A", typ := ColType.str, render := none }
        [("a", Value.vNull)] = some "") ∧
    (jsContainsChar "x,y" ',' = true ∧
      csvCell { key := "a", header := "A", typ := ColType.str, render := none }
        [("a", Value.vStr "x,y")] = some ("\"" ++ "x,y" ++ "\"")) ∧
    (csvCell
        { key := "a", header := "A", typ := ColType.num,
          render := some (fun _ => Value.vUndefined) }
        [("a", Value.vNull)] =
      some "0") :=
  ⟨⟨by decide,
      C7_export_formats.2.1 [[("a", Value.vNum 1)]]
        [{ key := "a", header := "A", typ := ColType.num, render := none }]
        { key := none, direction := Dir.asc } (by decide)⟩,
    C7_export_formats.2.2.1
      { key := "a", header := "A", typ := ColType.str, render := none }
      [("a", Value.vNull)] rfl (Or.inl rfl),
    ⟨by decide,
      C7_export_formats.2.2.2.1
        { key := "a", header := "A", typ := ColType.str, render := none }
        [("a", Value.vStr "x,y")] "x,y" rfl rfl (by decide)⟩,
    C7_export_formats.2.2.2.2 "a" "A" (fun _ => Value.vUndefined)
      [("a", Value.vNull)] rfl⟩

theorem consolidate_key_eq (aliases : List String) (t : Tx) :
    (toStr (consolidateTx aliases t).partnerName == "My Transfers") =
      selfTransferP aliases t := by
  unfold consolidateTx selfTransferP
  cases h : isAliasMatch aliases t.partnerName
  · rw [if_neg (by decide)]
    simp
  · rw [if_pos rfl]
    simp [toStr]

theorem consolidate_filter_mt (aliases : List String) (txs : List Tx) :
    (consolidate aliases txs).filter
        (fun t => toStr t.partnerName == "My Transfers") =
      (txs.filter (selfTransferP aliases)).map (consolidateTx aliases) := by
  unfold consolidate
  rw [List.filter_map]
  congr 1
  apply List.filter_congr
  intro t _
  exact consolidate_key_eq aliases t

/-- C8 counterexample: one record matches an alias and a second record's
counterparty is already the literal string "My Transfers"; the records
collapse into one ranking entry named "My Transfers", but its count is 2
while only 1 record matches an alias — the count is not "the number of
matching records". -/
theorem C8_counterexample :
    (let cx : List Tx :=
      [{ bookingDate := some 0, partnerName := Value.vStr "Eugenio Battaglia",
         txType := Value.vNull, amount := some 0, origCurrency := Value.vNull },
       { bookingDate := some 0, partnerName := Value.vStr "My Transfers",
         txType := Value.vNull, amount := some 0, origCurrency := Value.vNull }]
     ((partnerVolumes (consolidate nameVariations
          (sortedTransactions cx))).filter
        (fun e => e.name == "My Transfers")).map PartnerEntry.count = [2] ∧
      (cx.filter (fun t => isAliasMatch nameVariations t.partnerName)).length
        = 1) := by
  decide

/-- C8 amended: alias-matching string counterparties are rewritten to
"My Transfers" and non-string counterparties pass through unchanged, as
claimed; the records collapse into exactly one ranking entry named
"My Transfers", but its count is the number of records that either match
an alias or whose counterparty already stringifies to the canonical
label — not merely the number of alias-matching records. -/
theorem C8_alias_consolidation (aliases : List String) (txs : List Tx)
    (hmatch : 0 < (txs.filter (selfTransferP aliases)).length) :
    (∀ t : Tx, isAliasMatch aliases t.partnerName = true →
      (consolidateTx aliases t).partnerName = Value.vStr "My Transfers") ∧
    (∀ t : Tx, isStringV t.partnerName = false → consolidateTx aliases t = t) ∧
    ((partnerVolumes (consolidate aliases (sortedTransactions txs))).filter
        (fun e => e.name == "My Transfers")).map PartnerEntry.count =
      [(txs.filter (selfTransferP aliases)).length] := by
  refine ⟨?_, ?_, ?_⟩
  · intro t h
    unfold consolidateTx
    rw [if_pos h]
  · intro t h
    unfold consolidateTx
    have hm : isAliasMatch aliases t.partnerName = false := by
      cases hv : t.partnerName
      · rfl
      · rfl
      · rfl
      · rfl
      · rw [hv] at h
        exact absurd h (by simp [isStringV])
    rw [hm]
    simp
  · -- the single "My Transfers" entry and its count
    have hSfilter : ((sortedTransactions txs).filter
        (selfTransferP aliases)).length =
        (txs.filter (selfTransferP aliases)).length :=
      ((sortedTransactions_perm txs).filter (selfTransferP aliases)).length_eq
    have hCne : (consolidate aliases (sortedTransactions txs)).filter
        (fun t => toStr t.partnerName == "My Transfers") ≠ [] := by
      rw [consolidate_filter_mt]
      intro hnil
      have := congrArg List.length hnil
      rw [List.length_map, hSfilter, List.length_nil] at this
      omega
    have hfind := jsGroupBy_find (fun t => toStr t.partnerName)
      (consolidate aliases (sortedTransactions txs)) "My Transfers"
    have hEmpty : ((consolidate aliases (sortedTransactions txs)).filter
        (fun t => toStr t.partnerName == "My Transfers")).isEmpty = false := by
      cases hl : (consolidate aliases (sortedTransactions txs)).filter
          (fun t => toStr t.partnerName == "My Transfers")
      · exact absurd hl hCne
      · rfl
    rw [hEmpty] at hfind
    simp only [Bool.false_eq_true, if_false] at hfind
    -- groups with the canonical key, before entry construction
    have hgroups := assoc_filter_eq_find
      (jsGroupBy (fun t => toStr t.partnerName)
        (consolidate aliases (sortedTransactions txs)))
      "My Transfers"
      (jsGroupBy_keys_nodup (fun t => toStr t.partnerName)
        (consolidate aliases (sortedTransactions txs)))
    rw [hfind] at hgroups
    -- entry list before sorting
    have hE : ((jsGroupBy (fun t => toStr t.partnerName)
          (consolidate aliases (sortedTransactions txs))).map
          (fun g => mkPartnerEntry g.1 g.2)).filter
          (fun e => e.name == "My Transfers") =
        [mkPartnerEntry "My Transfers"
          ((consolidate aliases (sortedTransactions txs)).filter
            (fun t => toStr t.partnerName == "My Transfers"))] := by
      rw [List.filter_map]
      have hcongr : (jsGroupBy (fun t => toStr t.partnerName)
          (consolidate aliases (sortedTransactions txs))).filter
            ((fun e => e.name == "My Transfers") ∘
              (fun g => mkPartnerEntry g.1 g.2)) =
          (jsGroupBy (fun t => toStr t.partnerName)
          (consolidate aliases (sortedTransactions txs))).filter
            (fun g => g.1 == "My Transfers") := by
        apply List.filter_congr
        intro g _
        rfl
      rw [hcongr, hgroups]
      rfl
    -- sorting permutes the entries; a permutation of a singleton is itself
    have hperm : ((partnerVolumes (consolidate aliases
        (sortedTransactions txs))).filter
        (fun e => e.name == "My Transfers")).Perm
        [mkPartnerEntry "My Transfers"
          ((consolidate aliases (sortedTransactions txs)).filter
            (fun t => toStr t.partnerName == "My Transfers"))] := by
      rw [← hE]
      exact (stableSortBy_perm _ _).filter _
    rw [hperm.eq_singleton]
    simp only [List.map_cons, List.map_nil]
    unfold mkPartnerEntry
    simp only
    rw [consolidate_filter_mt, List.length_map, hSfilter]

/-- C8 witness: the amended theorem applied to a single concrete record
matching one of the configured aliases. -/
theorem C8_witness :
    (let w : List Tx :=
      [{ bookingDate := some 0, partnerName := Value.vStr "eugenio battaglia",
         txType := Value.vNull, amount := some 0, origCurrency := Value.vNull }]
     0 < (w.filter (selfTransferP nameVariations)).length ∧
      ((∀ t : Tx, isAliasMatch nameVariations t.partnerName = true →
        (consolidateTx nameVariations t).partnerName =
          Value.vStr "My Transfers") ∧
      (∀ t : Tx, isStringV t.partnerName = false →
        consolidateTx nameVariations t = t) ∧
      ((partnerVolumes (consolidate nameVariations
          (sortedTransactions w))).filter
          (fun e => e.name == "My Transfers")).map PartnerEntry.count =
        [(w.filter (selfTransferP nameVariations)).length])) :=
  ⟨by decide,
    C8_alias_consolidation nameVariations
      [{ bookingDate := some 0, partnerName := Value.vStr "eugenio battaglia",
         txType := Value.vNull, amount := some 0, origCurrency := Value.vNull }]
      (by decide)⟩

theorem periodEntry_avg_mul_days (p : String) (bs : List ℚ) :
    (mkPeriodEntry p bs).avgBalance * ((mkPeriodEntry p bs).days : ℚ) =
      bs.sum := by
  unfold mkPeriodEntry
  simp only
  cases bs with
  | nil => simp
  | cons b rest =>
    have hlen : (((b :: rest).length : ℕ) : ℚ) ≠ 0 := by
      simp only [List.length_cons, Nat.cast_add, Nat.cast_one]
      positivity
    exact div_mul_cancel₀ _ hlen

theorem bucketed_weighted_sum (le : PeriodEntry → PeriodEntry → Bool)
    (key : ℤ × ℚ → String) (series : List (ℤ × ℚ)) :
    ((stableSortBy le ((jsGroupBy key series).map
        (fun g => mkPeriodEntry g.1 (g.2.map Prod.snd)))).map
      (fun e => e.avgBalance * (e.days : ℚ))).sum =
      (series.map Prod.snd).sum := by
  have hperm := stableSortBy_perm le ((jsGroupBy key series).map
    (fun g => mkPeriodEntry g.1 (g.2.map Prod.snd)))
  rw [(hperm.map (fun e => e.avgBalance * (e.days : ℚ))).sum_eq]
  rw [List.map_map]
  have hcongr : ∀ g ∈ jsGroupBy key series,
      ((fun e => e.avgBalance * (e.days : ℚ)) ∘
        (fun g => mkPeriodEntry g.1 (g.2.map Prod.snd))) g =
        ((g.2.map Prod.snd).sum) :=
    fun g _ => periodEntry_avg_mul_days g.1 (g.2.map Prod.snd)
  rw [List.map_congr_left hcongr]
  exact jsGroupBy_sum Prod.snd key series

/-- C9: for every non-empty daily series, the yearly average balance is
the sum of every daily balance divided by the day count, and the weekly
and monthly bucket means weighted by each bucket's day count sum back to
that same total, hence reconstruct the yearly average exactly (the
floating-point tolerance of the claim is not needed over exact
rationals). -/
theorem C9_weighted_bucket_reconstruction (series : List (ℤ × ℚ))
    (hne : series ≠ []) :
    yearlyAvgBalance series =
      sumOfDailyBalances series / (totalDaysOf series : ℚ) ∧
    ((weeklyAvgBalances series).map
      (fun e => e.avgBalance * (e.days : ℚ))).sum = sumOfDailyBalances series ∧
    ((monthlyAvgBalances series).map
      (fun e => e.avgBalance * (e.days : ℚ))).sum = sumOfDailyBalances series ∧
    ((weeklyAvgBalances series).map
        (fun e => e.avgBalance * (e.days : ℚ))).sum /
      (totalDaysOf series : ℚ) = yearlyAvgBalance series ∧
    ((monthlyAvgBalances series).map
        (fun e => e.avgBalance * (e.days : ℚ))).sum /
      (totalDaysOf series : ℚ) = yearlyAvgBalance series := by
  have hw := bucketed_weighted_sum (fun a b => strLe a.period b.period)
    (fun p => weekKeyOf p.1) series
  have hm := bucketed_weighted_sum (fun a b => strLe a.period b.period)
    (fun p => monthKeyOf p.1) series
  refine ⟨rfl, hw, hm, ?_, ?_⟩
  · rw [show ((weeklyAvgBalances series).map
        (fun e => e.avgBalance * (e.days : ℚ))).sum =
        (series.map Prod.snd).sum from hw]
    rfl
  · rw [show ((monthlyAvgBalances series).map
        (fun e => e.avgBalance * (e.days : ℚ))).sum =
        (series.map Prod.snd).sum from hm]
    rfl

/-- C9 witness: the theorem applied to the concrete three-day series of
the specification scenario (balances 100, 100, 50). -/
theorem C9_witness :
    ([((0 : ℤ), (100 : ℚ)), (1, 100), (2, 50)] : List (ℤ × ℚ)) ≠ [] ∧
    (yearlyAvgBalance [((0 : ℤ), (100 : ℚ)), (1, 100), (2, 50)] =
      sumOfDailyBalances [((0 : ℤ), (100 : ℚ)), (1, 100), (2, 50)] /
        (totalDaysOf [((0 : ℤ), (100 : ℚ)), (1, 100), (2, 50)] : ℚ) ∧
    ((weeklyAvgBalances [((0 : ℤ), (100 : ℚ)), (1, 100), (2, 50)]).map
      (fun e => e.avgBalance * (e.days : ℚ))).sum =
      sumOfDailyBalances [((0 : ℤ), (100 : ℚ)), (1, 100), (2, 50)] ∧
    ((monthlyAvgBalances [((0 : ℤ), (100 : ℚ)), (1, 100), (2, 50)]).map
      (fun e => e.avgBalance * (e.days : ℚ))).sum =
      sumOfDailyBalances [((0 : ℤ), (100 : ℚ)), (1, 100), (2, 50)] ∧
    ((weeklyAvgBalances [((0 : ℤ), (100 : ℚ)), (1, 100), (2, 50)]).map
        (fun e => e.avgBalance * (e.days : ℚ))).sum /
      (totalDaysOf [((0 : ℤ), (100 : ℚ)), (1, 100), (2, 50)] : ℚ) =
      yearlyAvgBalance [((0 : ℤ), (100 : ℚ)), (1, 100), (2, 50)] ∧
    ((monthlyAvgBalances [((0 : ℤ), (100 : ℚ)), (1, 100), (2, 50)]).map
        (fun e => e.avgBalance * (e.days : ℚ))).sum /
      (totalDaysOf [((0 : ℤ), (100 : ℚ)), (1, 100), (2, 50)] : ℚ) =
      yearlyAvgBalance [((0 : ℤ), (100 : ℚ)), (1, 100), (2, 50)]) :=
  ⟨by decide,
    C9_weighted_bucket_reconstruction
      [((0 : ℤ), (100 : ℚ)), (1, 100), (2, 50)] (by decide)⟩

/-- C1 witness: the theorem applied to the concrete two-record input of
the specification scenario (+100 on day 0, −50 on day 2). -/
theorem C1_witness :
    (let w : List Tx :=
      [{ bookingDate := some 0, partnerName := Value.vNull,
         txType := Value.vNull, amount := some 100,
         origCurrency := Value.vNull },
       { bookingDate := some 2, partnerName := Value.vNull,
         txType := Value.vNull, amount := some (-50),
         origCurrency := Value.vNull }]
     w ≠ [] ∧ (∀ t ∈ w, t.amount.isSome) ∧ (∀ t ∈ w, t.bookingDate.isSome) ∧
      (inflows w + outflows w = netFlow w ∧
        ∃ p : ℤ × ℚ, (allDailyBalances w).getLast? = some p ∧
          p.2 = netFlow w)) :=
  ⟨by decide, by decide, by decide,
    C1_netflow_matches_last_daily_balance
      [{ bookingDate := some 0, partnerName := Value.vNull,
         txType := Value.vNull, amount := some 100,
         origCurrency := Value.vNull },
       { bookingDate := some 2, partnerName := Value.vNull,
         txType := Value.vNull, amount := some (-50),
         origCurrency := Value.vNull }]
      (by decide) (by decide) (by decide)⟩

/-- C2 witness: the theorem applied to the same concrete two-record
input, whose series spans days 0, 1 and 2. -/
theorem C2_witness :
    (let w : List Tx :=
      [{ bookingDate := some 0, partnerName := Value.vNull,
         txType := Value.vNull, amount := some 100,
         origCurrency := Value.vNull },
       { bookingDate := some 2, partnerName := Value.vNull,
         txType := Value.vNull, amount := some (-50),
         origCurrency := Value.vNull }]
     w ≠ [] ∧ (∀ t ∈ w, t.bookingDate.isSome) ∧
      (∃ d0 d1 : ℤ,
        (allDates w).head? = some d0 ∧
        (allDates w).getLast? = some d1 ∧
        (∀ t ∈ w, ∀ d, t.bookingDate = some d → d0 ≤ d ∧ d ≤ d1) ∧
        (∃ t ∈ w, t.bookingDate = some d0) ∧
        (∃ t ∈ w, t.bookingDate = some d1) ∧
        allDailyBalances w =
          fillFrom ((d1 - d0).toNat + 1) d0 (dailyBalances w) 0 ∧
        (allDailyBalances w).length = (d1 - d0).toNat + 1 ∧
        (∀ (i : ℕ) (p : ℤ × ℚ), (allDailyBalances w)[i]? = some p →
          p.1 = d0 + i) ∧
        (∀ (i : ℕ) (p : ℤ × ℚ) (v : ℚ), (allDailyBalances w)[i]? = some p →
          dailyBalances w (d0 + i) = some v → p.2 = v) ∧
        (∀ (i : ℕ) (p q : ℤ × ℚ), (allDailyBalances w)[i]? = some p →
          (allDailyBalances w)[i + 1]? = some q →
          dailyBalances w (d0 + (i + 1 : ℕ)) = none → q.2 = p.2))) :=
  ⟨by decide, by decide,
    C2_daily_series_gap_free
      [{ bookingDate := some 0, partnerName := Value.vNull,
         txType := Value.vNull, amount := some 100,
         origCurrency := Value.vNull },
       { bookingDate := some 2, partnerName := Value.vNull,
         txType := Value.vNull, amount := some (-50),
         origCurrency := Value.vNull }]
      (by decide) (by decide)⟩

end N26
